import Mathlib

set_option linter.unusedVariables false

/-!
Verification of the wg-quick orchestrator (src/wg-quick.c).

The program is "a shell script written in C": it sequences external commands
(`ip`, `wg`, `ndc`) to bring a WireGuard interface up or down.  We embed the
relevant control flow shallowly:

* C strings (char buffers) are `List Char`.
* The observable system state is `Sys`: the set of existing network
  interfaces, the ordered trace of mutating external commands issued, the
  process exit code once `exit` has been called, and the diagnostics printed
  to stderr.  Read-only probes done through `cmd_ret` (`ip link show`,
  `ip rule show`, `wg show ...`) mutate nothing and are not traced; their
  textual outcomes are supplied by environment records (`DelEnv`, `UpEnv`,
  `DownEnv`).
* `ip link add X type wireguard` succeeds exactly when no interface named X
  exists and then creates it; `ip link del X` succeeds exactly when X exists
  and then removes it.  All other command outcomes (statuses of the six
  configuration phases of `cmd_up`, `ndc` response lines, probe outputs) are
  chosen freely by the environment, so theorems quantify over every possible
  behaviour of the external tools.
* `exit(c)` after `atexit(cmd_up_cleanup)` has been registered runs the hook
  before the process dies; an `exit(29)` performed inside the hook (by a
  failing `cndc`) replaces the pending status, which is what the C runtime
  does when `exit` is called from an exit handler.
-/

/-- C strings are modelled as lists of characters. -/
abbrev Str := List Char

/-- Mutating external commands issued through `cmd` (shell) and `cndc`
(the `ndc` policy-daemon client), as far as the claims need to distinguish
them.  `ipLinkAdd`/`ipLinkDel` are the interface creation/deletion commands
of `add_if` (line 220) and `del_if` (line 232); `ndcNetworkDestroy` is the
`ndc network destroy` call of `del_if` (line 244); `ndcResolverSetnetdns` is
the DNS installation call of `set_dnses` (line 280). -/
inductive ExtCmd where
  | ipLinkAdd (iface : Str)
  | ipLinkDel (iface : Str)
  | ndcNetworkDestroy (id : Nat)
  | ndcResolverSetnetdns (id : Nat) (arglist : Str)
  deriving DecidableEq

/-- Observable state of a run: live interfaces, the ordered trace of mutating
commands issued so far, the exit code once `exit` has been reached, and the
stderr diagnostics. -/
structure Sys where
  interfaces : List Str
  trace : List ExtCmd
  exitCode : Option Nat
  stderr : List Str
  deriving DecidableEq

/-- Initial state over a given set of live interfaces. -/
def initSys (world : List Str) : Sys :=
  { interfaces := world, trace := [], exitCode := none, stderr := [] }

/-- Diagnostic printed by `cmd_up` (line 454) when the interface already exists. -/
def errAlreadyExists (iface : Str) : Str :=
  ("Error: ").toList ++ iface ++ (" already exists\n").toList

/-- Diagnostic printed by `cmd_down` (line 489) when the interface is not listed. -/
def errNotWireguard (iface : Str) : Str :=
  ("Error: ").toList ++ iface ++ (" is not a WireGuard interface\n").toList

/-- Exit decision of `cmd` (lines 144-163): after running the command with
status `ret`, the process exits with status `ret` iff `ret` is nonzero and the
cleanup flag `is_exiting` is not set (`if (ret && !is_exiting) exit(ret);`,
line 161). `none` means execution continues. -/
def cmd_exit (is_exiting : Bool) (ret : Nat) : Option Nat :=
  if ret ≠ 0 ∧ is_exiting = false then some ret else none

/-- Success test of `cndc` (line 193): the first response line of the `ndc`
command must exist and contain the substring "200 0". -/
def ndcOk : Option Str → Bool
  | none => false
  | some r => decide (("200 0").toList <:+: r)

/-- Exit decision of `cndc` (lines 193-197): when the response test fails the
process exits with code 29, irrespective of `is_exiting` (the flag is not
consulted by `cndc`). `none` means execution continues. -/
def cndc_exit (resp : Option Str) : Option Nat :=
  if ndcOk resp then none else some 29

/-- Environment of one `del_if` invocation (lines 223-245): `ruleNetid` is the
hex network id captured by the regex `0xc([0-9a-f]+)/0xcffff lookup <iface>`
from the first matching `ip rule show` line (`none` when no line matches), and
`destroyResp` is the first response line of `ndc network destroy`. -/
structure DelEnv where
  ruleNetid : Option Nat
  destroyResp : Option Str
  deriving DecidableEq

/-- Model of `del_if` (lines 223-245).  It issues `ip link del <iface>` (which
succeeds iff the interface exists, and removes it); on failure outside the
cleanup path it exits with the command's status (`cmd`, line 161).  It then
scans `ip rule show` for the interface's fwmark rule and, when one is found,
issues `ndc network destroy <id>`; a failing `cndc` exits with 29 even during
cleanup. -/
def del_if_run (denv : DelEnv) (is_exiting : Bool) (iface : Str) (s : Sys) : Sys :=
  let st : Nat := if iface ∈ s.interfaces then 0 else 1
  let s1 : Sys := { s with
                    interfaces := s.interfaces.erase iface
                    trace := s.trace ++ [ExtCmd.ipLinkDel iface] }
  match cmd_exit is_exiting st with
  | some c => { s1 with exitCode := some c }
  | none =>
    match denv.ruleNetid with
    | none => s1
    | some id =>
      let s2 := { s1 with trace := s1.trace ++ [ExtCmd.ndcNetworkDestroy id] }
      match cndc_exit denv.destroyResp with
      | some c => { s2 with exitCode := some c }
      | none => s2

/-- Model of the process-exit hook `cmd_up_cleanup` (lines 440-446): it sets
`is_exiting`, and if the single-slot intent `cleanup_iface` is non-NULL it runs
`del_if` on it. -/
def cmd_up_cleanup_run (denv : DelEnv) (cleanup_iface : Option Str) (s : Sys) : Sys :=
  match cleanup_iface with
  | none => s
  | some ifc => del_if_run denv true ifc s

/-- Environment of one `cmd_up` invocation: the exit statuses of the six
configuration phases called after `add_if` (lines 462-467) - `set_config`,
`set_mtu`, `set_addr`, `up_if`, `set_dnses`, `set_routes` - where 0 means the
phase returned normally and a nonzero value means it terminated the process
with that status (each phase interacts with the system only through `cmd` and
`cndc`, whose failures exit; none of the phases creates or deletes an
interface); plus the `del_if` environment used if the cleanup hook fires. -/
structure UpEnv where
  setConfigSt : Nat
  setMtuSt : Nat
  setAddrSt : Nat
  upIfSt : Nat
  setDnsesSt : Nat
  setRoutesSt : Nat
  denv : DelEnv
  deriving DecidableEq

/-- The six phase statuses of `cmd_up` in program order (lines 462-467). -/
def UpEnv.steps (e : UpEnv) : List Nat :=
  [e.setConfigSt, e.setMtuSt, e.setAddrSt, e.upIfSt, e.setDnsesSt, e.setRoutesSt]

/-- Result of a `cmd_up` run: final system state, whether the registered exit
hook ran at termination, and the value of the single-slot intent
`cleanup_iface` at the moment the hook ran. -/
structure UpResult where
  sys : Sys
  hookRan : Bool
  hookIntent : Option Str
  deriving DecidableEq

/-- Model of `cmd_up` (lines 448-472).  First the existence probe
`ip link show dev <iface>` (line 453): if the interface exists the program
prints a diagnostic and exits 92 before the cleanup hook is registered.
Otherwise `cleanup_iface` is set and `atexit(cmd_up_cleanup)` registered
(lines 458-459), then `add_if` creates the interface (line 461; `ip link add`
succeeds since the probe found no interface of that name).  The six
configuration phases then run in order; the first one with a nonzero status
terminates the process with that status, which fires the hook with the intent
still set.  If all succeed, `cleanup_iface` is cleared (lines 469-470) and
`exit(0)` fires the hook with the intent empty.  An `exit(29)` raised inside
the hook replaces the pending exit status. -/
def cmd_up_run (env : UpEnv) (iface : Str) (world : List Str) : UpResult :=
  if iface ∈ world then
    { sys := { initSys world with stderr := [errAlreadyExists iface], exitCode := some 92 },
      hookRan := false, hookIntent := none }
  else
    let s1 : Sys := { initSys world with
                      interfaces := (iface :: world)
                      trace := [ExtCmd.ipLinkAdd iface] }
    match env.steps.find? (fun st => st != 0) with
    | some c =>
      let s2 := cmd_up_cleanup_run env.denv (some iface) s1
      { sys := { s2 with exitCode := some (s2.exitCode.getD c) },
        hookRan := true, hookIntent := some iface }
    | none =>
      let s2 := cmd_up_cleanup_run env.denv none s1
      { sys := { s2 with exitCode := some (s2.exitCode.getD 0) },
        hookRan := true, hookIntent := none }

/-- Tokenizer loop underlying every `strtok(s, delims)` scan in the program:
runs of delimiter characters separate tokens, empty tokens never occur,
leading and trailing delimiters are ignored.  `cur` is the (reversed) token
currently being accumulated. -/
def tokensGo (p : Char → Bool) : List Char → Str → List Str
  | [], cur => if cur = [] then [] else [cur.reverse]
  | c :: rest, cur =>
    if p c then
      (if cur = [] then tokensGo p rest [] else cur.reverse :: tokensGo p rest [])
    else
      tokensGo p rest (c :: cur)

/-- All tokens of `s` under delimiter predicate `p` (strtok semantics). -/
def strtokAll (p : Char → Bool) (s : Str) : List Str := tokensGo p s []

/-- Environment of one `cmd_down` invocation: the first output line of
`wg show interfaces` (line 479; `none` when the command prints nothing), and
the `del_if` environment. -/
structure DownEnv where
  wgShowLine : Option Str
  denv : DelEnv
  deriving DecidableEq

/-- The membership test of `cmd_down` (lines 479-487): the requested name must
appear among the space/newline-separated tokens of the first
`wg show interfaces` output line. -/
def downFound (env : DownEnv) (iface : Str) : Bool :=
  match env.wgShowLine with
  | none => false
  | some l => (strtokAll (fun c => c = ' ' || c = '\n') l).contains iface

/-- Model of `cmd_down` (lines 474-495): if the interface is not found in the
live list, print a diagnostic and exit 43 with nothing mutated; otherwise run
`del_if` (with `is_exiting` false and no exit hook registered) and exit 0. -/
def cmd_down_run (env : DownEnv) (iface : Str) (world : List Str) : Sys :=
  let s0 := initSys world
  if downFound env iface = false then
    { s0 with stderr := [errNotWireguard iface], exitCode := some 43 }
  else
    let s1 := del_if_run env.denv false iface s0
    { s1 with exitCode := some (s1.exitCode.getD 0) }

/-- C conversion of a signed-int value to `unsigned int` (reduction modulo
2^32), used where `get_route_mtu`'s `int` result is assigned to the
`unsigned int next_mtu` in `set_mtu` (line 374). -/
def cUInt (x : Int) : Nat := (x % 4294967296).toNat

/-- Loop body of the auto-MTU scan of `set_mtu` (lines 365-377): a peer sample
`s` (the `int` returned by `get_route_mtu(endpoint)`, `-1` when unresolvable)
is converted to `unsigned int`; it replaces the running value exactly when it
is positive and strictly below it (`if (next_mtu > 0 && next_mtu <
endpoint_mtu)`, line 375 - the comparison promotes `endpoint_mtu` to
unsigned). -/
def set_mtu_fold (endpoint_mtu : Int) (s : Int) : Int :=
  let next : Nat := cUInt s
  if 0 < next ∧ next < cUInt endpoint_mtu then (next : Int) else endpoint_mtu

/-- Auto-resolution path of `set_mtu` (lines 354-379), given the default-route
sample `m0` (= `get_route_mtu("default")`, `-1` when unresolvable, replaced by
1500 at lines 362-363) and the list of peer-endpoint samples in the order the
endpoints are scanned: the value installed by the final
`cndc("interface setmtu %s %d", iface, endpoint_mtu - 80)` (line 379). -/
def set_mtu_auto (m0 : Int) (peers : List Int) : Int :=
  let base : Int := if m0 = -1 then 1500 else m0
  peers.foldl set_mtu_fold base - 80

/-- Modelled from the spec words (refinement target for C2): the installed MTU
equals min(m0, m1, ..., mn) - 80 where m0 is the default-route sample falling
back to 1500 when unresolvable, and m1..mn are exactly the peer samples that
resolved to a positive MTU. -/
def specAutoMtu (m0 : Int) (peers : List Int) : Int :=
  let base : Int := if m0 = -1 then 1500 else m0
  (peers.filter (fun s => decide (0 < s))).foldl min base - 80

/-- Even 16-bit masking applied to each pseudo-random sample in `up_if`
(line 252): `random() & 0xfffe`. -/
def maskEven (r : Nat) : Nat := r &&& 65534

/-- Fuel-indexed model of the allocation loop of `up_if` (lines 251-252):
`while (*netid < 4096) *netid = random() & 0xfffe;`.  `rng n` is the n-th
value of the pseudo-random source, `i` the index of the next sample to draw,
`netid` the current candidate (0 at the only call site, line 451/465).
`none` means the loop has not terminated within `fuel` iterations. -/
def alloc_fuel (rng : Nat → Nat) : Nat → Nat → Nat → Option Nat
  | 0, _, netid => if netid < 4096 then none else some netid
  | fuel + 1, i, netid =>
    if netid < 4096 then alloc_fuel rng fuel (i + 1) (maskEven (rng i)) else some netid

/-- Delimiter set of the `strtok` scans over DNS and address lists
(`", \t\n"`, lines 272, 305). -/
def dnsDelim (c : Char) : Bool := c = ',' || c = ' ' || c = '\t' || c = '\n'

/-- Sanitization test of `set_dnses` (line 273): an entry is kept unless it
contains a single quote (ASCII 39) or a backslash (ASCII 92). -/
def dnsClean (t : Str) : Bool :=
  !(t.contains (Char.ofNat 39) || t.contains (Char.ofNat 92))

/-- Space-only delimiter predicate, used to read back the space-joined
argument list. -/
def spaceP (c : Char) : Bool := c = ' '

/-- One quoted argument as produced by `snprintf(arg, len + 3, "'%s' ", dns)`
(line 275): the formatted text is quote, entry, quote, space; `snprintf`
writes at most `len + 2` characters (`len` is the length of the whole DNS
string), so the only possible truncation - reachable only when the entry is
the entire string - drops the trailing space. -/
def dnsArgFor (len : Nat) (t : Str) : Str :=
  (Char.ofNat 39 :: t ++ [Char.ofNat 39, ' ']).take (min (t.length + 3) (len + 2))

/-- The argument list built by `set_dnses` (lines 270-277): the kept (clean)
tokens' quoted arguments concatenated in order.  The `strncat` bound of
`len * 4 - 1` per call (line 276) never truncates, since each argument is at
most `len + 2` characters and the total stays below the bound. -/
def set_dnses_arglist (dnses : Str) : Str :=
  ((strtokAll dnsDelim dnses).filter dnsClean).foldl
    (fun acc t => acc ++ dnsArgFor dnses.length t) []

/-- Model of `set_dnses` (lines 261-281): no resolver command is issued when
the DNS string is empty (line 268) or when sanitization leaves an empty
argument list (line 278); otherwise `ndc resolver setnetdns <netid> '' <arglist>`
is issued (line 280). -/
def set_dnses_cmd (netid : Nat) (dnses : Str) : Option ExtCmd :=
  if dnses.length = 0 then none
  else if (set_dnses_arglist dnses).length = 0 then none
  else some (ExtCmd.ndcResolverSetnetdns netid (set_dnses_arglist dnses))

/-- Modelled from the spec words (refinement target for C7): an individually
quoted entry of the space-joined argument list. -/
def specQuoted (t : Str) : Str := Char.ofNat 39 :: t ++ [Char.ofNat 39]

/-- Reading the space-joined argument list back into its entries: split on
spaces, ignoring empty pieces. -/
def splitArgs (s : Str) : List Str := strtokAll spaceP s

/-- C `isspace` in the default locale (line 557): space, tab, newline,
vertical tab, form feed, carriage return. -/
def cIsSpace (c : Char) : Bool :=
  c = ' ' || c = '\t' || c = '\n' || c = Char.ofNat 11 || c = Char.ofNat 12 || c = '\r'

/-- The whitespace-stripped copy of a line built by `parse_options`
(lines 553-561): every whitespace character is removed, not just trimmed. -/
def stripWs (line : Str) : Str := line.filter (fun c => !cIsSpace c)

/-- ASCII lower-casing as `strcasecmp`/`strncasecmp` apply it per character. -/
def lowerC (c : Char) : Char :=
  if 'A' ≤ c ∧ c ≤ 'Z' then Char.ofNat (c.toNat + 32) else c

/-- `strcasecmp(a, b) == 0` (line 565). -/
def strcaseEq (a b : Str) : Bool := a.map lowerC == b.map lowerC

/-- `strncasecmp(s, pre, strlen(pre)) == 0` (lines 568, 571, 574); the
patterns are fixed lowercase spellings of `Address=`, `DNS=`, `MTU=`. -/
def strncaseEqPre (pre s : Str) : Bool := (s.take pre.length).map lowerC == pre.map lowerC

/-- Value of the leading digit run (the digits consumed by `atoi`). -/
def leadDigits (s : Str) : Nat :=
  (s.takeWhile Char.isDigit).foldl (fun a c => a * 10 + (c.toNat - 48)) 0

/-- C `atoi` on the whitespace-free value string (line 575): an optional sign
followed by a digit run; there is no leading whitespace to skip because the
argument is a suffix of the stripped line. -/
def atoiC (s : Str) : Int :=
  match s with
  | c :: rest =>
    if c = '-' then -(leadDigits rest : Int)
    else if c = '+' then (leadDigits rest : Int)
    else (leadDigits s : Int)
  | [] => 0

/-- Parser state of `parse_options` (lines 515-519): the accumulating
descriptor fields (`NULL` modelled as `none`), the `unsigned int` MTU and the
in-`[Interface]`-section flag. -/
structure POpts where
  addrs : Option Str
  dnses : Option Str
  mtu : Nat
  config : Option Str
  in_interface_section : Bool
  deriving DecidableEq

/-- `concat_and_free` (lines 497-507): append with a delimiter, or start a
fresh string when nothing was accumulated yet. -/
def concat_and_free (orig : Option Str) (delim : Str) (new_line : Str) : Str :=
  match orig with
  | none => new_line
  | some o => o ++ delim ++ new_line

/-- The section-flag updates at the top of the loop body (lines 563-566):
any line whose stripped copy starts with `[` leaves the section; a stripped
copy equal to `[Interface]` (case-insensitively) enters it.  `clean[0]` of an
empty stripped line is the NUL terminator, which is not `[`. -/
def nextSectionFlag (flag : Bool) (clean : Str) : Bool :=
  let f1 := if clean.headD (Char.ofNat 0) = '[' then false else flag
  if strcaseEq clean (("[interface]").toList) then true else f1

/-- Loop body of `parse_options` (lines 552-580) for one `getline` line:
inside the `[Interface]` section, `Address=`/`DNS=` lines with nonempty value
are merged (comma-appended) into the descriptor, an `MTU=` line replaces the
MTU (with `atoi`'s int converted to `unsigned int`), and every other line -
in every section - is appended verbatim (unstripped) to the config body. -/
def processLine (st : POpts) (line : Str) : POpts :=
  let clean := stripWs line
  let f2 := nextSectionFlag st.in_interface_section clean
  if f2 then
    if strncaseEqPre (("address=").toList) clean && decide (clean.length > 8) then
      { st with addrs := some (concat_and_free st.addrs [','] (clean.drop 8))
                in_interface_section := f2 }
    else if strncaseEqPre (("dns=").toList) clean && decide (clean.length > 4) then
      { st with dnses := some (concat_and_free st.dnses [','] (clean.drop 4))
                in_interface_section := f2 }
    else if strncaseEqPre (("mtu=").toList) clean && decide (clean.length > 4) then
      { st with mtu := cUInt (atoiC (clean.drop 4))
                in_interface_section := f2 }
    else
      { st with config := some (concat_and_free st.config [] line)
                in_interface_section := f2 }
  else
    { st with config := some (concat_and_free st.config [] line)
              in_interface_section := f2 }

/-- The whole `getline` loop of `parse_options` over the file's lines. -/
def parse_lines (lines : List Str) : POpts :=
  lines.foldl processLine
    { addrs := none, dnses := none, mtu := 0, config := none, in_interface_section := false }

/-- The descriptor fields `(addrs, dnses, mtu, config)` produced by
`parse_options`, after the `NULL`-to-`""` defaults of lines 582-589. -/
def parse_options_run (lines : List Str) : Str × Str × Nat × Str :=
  let st := parse_lines lines
  (st.addrs.getD [], st.dnses.getD [], st.mtu, st.config.getD [])

/-- Modelled from the (amended) spec words for C8: the section flag in force
while a line is processed - a line whose whitespace-stripped copy equals
`[Interface]` case-insensitively enters the section, any other line whose
stripped copy opens with `[` leaves it, and all other lines keep the current
section. -/
def sectionAfter (flag : Bool) (line : Str) : Bool :=
  if strcaseEq (stripWs line) (("[interface]").toList) then true
  else if (stripWs line).headD (Char.ofNat 0) = '[' then false
  else flag

/-- Classification of one config line for the C8 refinement. -/
inductive LineClass where
  | addrLine (v : Str)
  | dnsLine (v : Str)
  | mtuLine (v : Str)
  | passLine
  deriving DecidableEq

/-- Modelled from the (amended) spec words for C8: inside an `[Interface]`
section, `Address=`/`DNS=`/`MTU=` lines (matched case-insensitively on the
whitespace-stripped copy, with nonempty value) are merged into the descriptor;
every other line - including every section marker - passes through verbatim. -/
def classifyLine (flag : Bool) (line : Str) : LineClass :=
  let clean := stripWs line
  if flag then
    if strncaseEqPre (("address=").toList) clean && decide (clean.length > 8) then
      LineClass.addrLine (clean.drop 8)
    else if strncaseEqPre (("dns=").toList) clean && decide (clean.length > 4) then
      LineClass.dnsLine (clean.drop 4)
    else if strncaseEqPre (("mtu=").toList) clean && decide (clean.length > 4) then
      LineClass.mtuLine (clean.drop 4)
    else LineClass.passLine
  else LineClass.passLine

/-- Each line paired with the section flag in force while it is processed. -/
def specAnnotate : Bool → List Str → List (Bool × Str)
  | _, [] => []
  | flag, l :: ls =>
    let f := sectionAfter flag l
    (f, l) :: specAnnotate f ls

/-- The merged `Address=` values, in file order, starting from section flag
`flag`. -/
def annAddrs (flag : Bool) (lines : List Str) : List Str :=
  (specAnnotate flag lines).filterMap (fun fl =>
    match classifyLine fl.1 fl.2 with
    | LineClass.addrLine v => some v
    | _ => none)

/-- The merged `DNS=` values, in file order. -/
def annDnses (flag : Bool) (lines : List Str) : List Str :=
  (specAnnotate flag lines).filterMap (fun fl =>
    match classifyLine fl.1 fl.2 with
    | LineClass.dnsLine v => some v
    | _ => none)

/-- The `MTU=` values, in file order. -/
def annMtus (flag : Bool) (lines : List Str) : List Str :=
  (specAnnotate flag lines).filterMap (fun fl =>
    match classifyLine fl.1 fl.2 with
    | LineClass.mtuLine v => some v
    | _ => none)

/-- The lines passed through verbatim into the config body, in file order. -/
def annPass (flag : Bool) (lines : List Str) : List Str :=
  (specAnnotate flag lines).filterMap (fun fl =>
    match classifyLine fl.1 fl.2 with
    | LineClass.passLine => some fl.2
    | _ => none)

/-- Modelled from the spec words: values merged into one delimiter-separated
string, in order. -/
def delimJoin (delim : Str) : List Str → Str
  | [] => []
  | [v] => v
  | v :: vs => v ++ delim ++ delimJoin delim vs

/-- Interfaces after `del_if`: the target is erased, whatever else happens. -/
theorem del_if_run_interfaces (denv : DelEnv) (b : Bool) (iface : Str) (s : Sys) :
    (del_if_run denv b iface s).interfaces = s.interfaces.erase iface := by
  simp only [del_if_run]
  cases h1 : cmd_exit b (if iface ∈ s.interfaces then 0 else 1) with
  | some c => simp [h1]
  | none =>
    cases h2 : denv.ruleNetid with
    | none => simp [h1, h2]
    | some id =>
      cases h3 : cndc_exit denv.destroyResp with
      | some c => simp [h1, h2, h3]
      | none => simp [h1, h2, h3]

/-- The deletion command is always issued (and traced) by `del_if`. -/
theorem del_if_run_trace_del (denv : DelEnv) (b : Bool) (iface : Str) (s : Sys) :
    ExtCmd.ipLinkDel iface ∈ (del_if_run denv b iface s).trace := by
  simp only [del_if_run]
  cases h1 : cmd_exit b (if iface ∈ s.interfaces then 0 else 1) with
  | some c => simp [h1]
  | none =>
    cases h2 : denv.ruleNetid with
    | none => simp [h1, h2]
    | some id =>
      cases h3 : cndc_exit denv.destroyResp with
      | some c => simp [h1, h2, h3]
      | none => simp [h1, h2, h3]

/-- C1: during `up`, the single-slot cleanup intent is in place from the moment
interface creation succeeds (the program stores the name and registers the exit
hook immediately before `ip link add`, so the intent is registered by the time
creation succeeds) and is cleared immediately before the normal `exit(0)`.
Consequently, for every failure of any configuration phase after interface
creation - over every possible environment behaviour - the exit hook runs with
the intent still set and removes the interface, so no interface of that name
remains; and a successful `up` exits 0 with the interface present and never
issues any teardown command (`ip link del` / `ndc network destroy`). -/
theorem C1_up_cleanup_guarantee (env : UpEnv) (iface : Str) (world : List Str)
    (hpre : iface ∉ world) :
    (∀ c, env.steps.find? (fun st => st != 0) = some c →
       (cmd_up_run env iface world).hookRan = true ∧
       (cmd_up_run env iface world).hookIntent = some iface ∧
       iface ∉ (cmd_up_run env iface world).sys.interfaces ∧
       ExtCmd.ipLinkDel iface ∈ (cmd_up_run env iface world).sys.trace) ∧
    (env.steps.find? (fun st => st != 0) = none →
       (cmd_up_run env iface world).sys.exitCode = some 0 ∧
       (cmd_up_run env iface world).hookRan = true ∧
       (cmd_up_run env iface world).hookIntent = none ∧
       (cmd_up_run env iface world).sys.interfaces = (iface :: world) ∧
       (∀ j, ExtCmd.ipLinkDel j ∉ (cmd_up_run env iface world).sys.trace) ∧
       (∀ id, ExtCmd.ndcNetworkDestroy id ∉ (cmd_up_run env iface world).sys.trace)) := by
  constructor
  · intro c hc
    simp only [cmd_up_run, if_neg hpre, hc, cmd_up_cleanup_run, initSys]
    refine ⟨by trivial, by trivial, ?_, ?_⟩
    · rw [del_if_run_interfaces]
      simp [hpre]
    · exact del_if_run_trace_del env.denv true iface _
  · intro hc
    simp only [cmd_up_run, if_neg hpre, hc, cmd_up_cleanup_run, initSys]
    refine ⟨by trivial, by trivial, by trivial, by trivial, ?_, ?_⟩
    · intro j
      simp
    · intro id
      simp

/-- Witness for C1 at concrete inputs: with no pre-existing interface, a run in
which `set_config` exits with status 7 fires the hook with the intent set and
leaves no interface behind. -/
theorem C1_witness :
    (cmd_up_run ⟨7, 0, 0, 0, 0, 0, ⟨some 49152, none⟩⟩ (['w','g','0']) []).hookRan = true ∧
    (cmd_up_run ⟨7, 0, 0, 0, 0, 0, ⟨some 49152, none⟩⟩ (['w','g','0']) []).hookIntent =
      some (['w','g','0']) ∧
    (['w','g','0']) ∉
      (cmd_up_run ⟨7, 0, 0, 0, 0, 0, ⟨some 49152, none⟩⟩ (['w','g','0']) []).sys.interfaces ∧
    ExtCmd.ipLinkDel (['w','g','0']) ∈
      (cmd_up_run ⟨7, 0, 0, 0, 0, 0, ⟨some 49152, none⟩⟩ (['w','g','0']) []).sys.trace :=
  (C1_up_cleanup_guarantee ⟨7, 0, 0, 0, 0, 0, ⟨some 49152, none⟩⟩ (['w','g','0']) []
    (by decide)).1 7 (by decide)

/-- C3 counterexample: the claim says that while the cleanup hook is unwinding
EVERY external-command failure is swallowed, so the process would keep the
original failure status.  Concretely: `set_config` fails with status 7, the
hook removes the interface, finds the fwmark rule, and its `ndc network
destroy` fails (no response line).  `cndc` does not consult `is_exiting`
(lines 193-197), so it calls `exit(29)` from inside the hook and the process
terminates with 29, not with the original status 7. -/
theorem C3_counterexample :
    (cmd_up_run ⟨0, 7, 0, 0, 0, 0, ⟨some 49153, none⟩⟩ (['w','g','1']) []).sys.exitCode =
      some 29 ∧ (29 : Nat) ≠ 7 := by
  constructor
  · rfl
  · decide

/-- C3 as amended: a nonzero exit status of a command run through the shell
runner `cmd` terminates the process with that status, and such failures are
swallowed while the cleanup hook is unwinding (`is_exiting` set); but a failed
policy-daemon invocation through `cndc` always terminates the process with
code 29 - the daemon command's own exit status is never propagated and the
failure is not swallowed during cleanup, so the hook itself can still fail
with code 29. -/
theorem C3_amended (st : Nat) (resp : Option Str) :
    (st ≠ 0 → cmd_exit false st = some st) ∧
    cmd_exit true st = none ∧
    (ndcOk resp = false → cndc_exit resp = some 29) ∧
    (ndcOk resp = true → cndc_exit resp = none) := by
  refine ⟨?_, ?_, ?_, ?_⟩
  · intro h
    simp [cmd_exit, h]
  · simp [cmd_exit]
  · intro h
    simp [cndc_exit, h]
  · intro h
    simp [cndc_exit, h]

/-- Witness for C3 (amended) at concrete inputs. -/
theorem C3_amended_witness :
    cmd_exit false 5 = some 5 ∧ cmd_exit true 5 = none ∧ cndc_exit none = some 29 :=
  ⟨(C3_amended 5 none).1 (by decide), (C3_amended 5 none).2.1,
    (C3_amended 5 none).2.2.1 (by decide)⟩

/-- C4 counterexample: the claim says the `down` path never issues an explicit
binding-destruction command.  But `del_if` (lines 243-244), called by
`cmd_down`, issues `ndc network destroy <id>` whenever the fwmark rule scan of
`ip rule show` finds the interface's rule - here a concrete `down` run whose
trace contains the explicit destruction command. -/
theorem C4_counterexample :
    ExtCmd.ndcNetworkDestroy 49152 ∈
      (cmd_down_run ⟨some (['w','g','0','\n']), ⟨some 49152, some (("200 0 ok").toList)⟩⟩
        (['w','g','0']) [['w','g','0']]).trace := by decide

/-- C4 as amended: on the `down` path, after deleting the interface the
program scans the routing policy rules; if the interface's fwmark rule is
found it EXPLICITLY destroys the network binding via `ndc network destroy`,
and only when no such rule is found is no binding-destruction command issued. -/
theorem C4_amended (env : DownEnv) (iface : Str) (world : List Str)
    (hfound : downFound env iface = true) (hpresent : iface ∈ world) :
    (∀ id, env.denv.ruleNetid = some id →
       (cmd_down_run env iface world).trace =
         [ExtCmd.ipLinkDel iface, ExtCmd.ndcNetworkDestroy id]) ∧
    (env.denv.ruleNetid = none →
       (cmd_down_run env iface world).trace = [ExtCmd.ipLinkDel iface]) := by
  have hnotfalse : ¬ (downFound env iface = false) := by simp [hfound]
  constructor
  · intro id hid
    simp only [cmd_down_run, if_neg hnotfalse, del_if_run, initSys, if_pos hpresent, hid]
    cases h3 : cndc_exit env.denv.destroyResp with
    | some c => simp [cmd_exit, h3]
    | none => simp [cmd_exit, h3]
  · intro hid
    simp only [cmd_down_run, if_neg hnotfalse, del_if_run, initSys, if_pos hpresent, hid]
    simp [cmd_exit]

/-- Witness for C4 (amended) at concrete inputs, both rule outcomes. -/
theorem C4_amended_witness :
    (cmd_down_run ⟨some (['w','g','0','\n']), ⟨some 49154, none⟩⟩
        (['w','g','0']) [['w','g','0']]).trace =
      [ExtCmd.ipLinkDel (['w','g','0']), ExtCmd.ndcNetworkDestroy 49154] ∧
    (cmd_down_run ⟨some (['w','g','0','\n']), ⟨none, none⟩⟩
        (['w','g','0']) [['w','g','0']]).trace = [ExtCmd.ipLinkDel (['w','g','0'])] :=
  ⟨(C4_amended ⟨some (['w','g','0','\n']), ⟨some 49154, none⟩⟩ (['w','g','0'])
      [['w','g','0']] (by decide) (by decide)).1 49154 rfl,
   (C4_amended ⟨some (['w','g','0','\n']), ⟨none, none⟩⟩ (['w','g','0'])
      [['w','g','0']] (by decide) (by decide)).2 rfl⟩

/-- C5: each precondition failure prints a diagnostic to stderr and exits
immediately with a failure-class-specific nonzero code - 92 when the interface
already exists on `up` (line 455), 43 when the name is not a live WireGuard
interface on `down` (line 490) - and performs no system mutation: the trace of
mutating commands is empty and the interface set is unchanged (and on `up` the
cleanup hook was not even registered). -/
theorem C5_precondition_failures (uenv : UpEnv) (denv : DownEnv) (iface : Str)
    (world : List Str) :
    (iface ∈ world →
       (cmd_up_run uenv iface world).sys.exitCode = some 92 ∧
       (cmd_up_run uenv iface world).sys.trace = [] ∧
       (cmd_up_run uenv iface world).sys.interfaces = world ∧
       (cmd_up_run uenv iface world).sys.stderr = [errAlreadyExists iface] ∧
       (cmd_up_run uenv iface world).hookRan = false) ∧
    (downFound denv iface = false →
       (cmd_down_run denv iface world).exitCode = some 43 ∧
       (cmd_down_run denv iface world).trace = [] ∧
       (cmd_down_run denv iface world).interfaces = world ∧
       (cmd_down_run denv iface world).stderr = [errNotWireguard iface]) ∧
    (92 : Nat) ≠ 43 := by
  refine ⟨?_, ?_, by decide⟩
  · intro h
    simp [cmd_up_run, h, initSys]
  · intro h
    simp [cmd_down_run, h, initSys]

/-- Witness for C5 at concrete inputs: `up` on an existing interface and
`down` on an unknown interface. -/
theorem C5_witness :
    ((cmd_up_run ⟨0, 0, 0, 0, 0, 0, ⟨none, none⟩⟩ (['w','g','0']) [['w','g','0']]).sys.exitCode =
        some 92 ∧
     (cmd_up_run ⟨0, 0, 0, 0, 0, 0, ⟨none, none⟩⟩ (['w','g','0']) [['w','g','0']]).sys.trace = [] ∧
     (cmd_up_run ⟨0, 0, 0, 0, 0, 0, ⟨none, none⟩⟩ (['w','g','0']) [['w','g','0']]).sys.interfaces =
        [['w','g','0']] ∧
     (cmd_up_run ⟨0, 0, 0, 0, 0, 0, ⟨none, none⟩⟩ (['w','g','0']) [['w','g','0']]).sys.stderr =
        [errAlreadyExists (['w','g','0'])] ∧
     (cmd_up_run ⟨0, 0, 0, 0, 0, 0, ⟨none, none⟩⟩ (['w','g','0']) [['w','g','0']]).hookRan =
        false) ∧
    ((cmd_down_run ⟨none, ⟨none, none⟩⟩ (['w','g','0']) []).exitCode = some 43 ∧
     (cmd_down_run ⟨none, ⟨none, none⟩⟩ (['w','g','0']) []).trace = [] ∧
     (cmd_down_run ⟨none, ⟨none, none⟩⟩ (['w','g','0']) []).interfaces = [] ∧
     (cmd_down_run ⟨none, ⟨none, none⟩⟩ (['w','g','0']) []).stderr =
        [errNotWireguard (['w','g','0'])]) :=
  ⟨(C5_precondition_failures ⟨0, 0, 0, 0, 0, 0, ⟨none, none⟩⟩ ⟨none, ⟨none, none⟩⟩
      (['w','g','0']) [['w','g','0']]).1 (by decide),
   (C5_precondition_failures ⟨0, 0, 0, 0, 0, 0, ⟨none, none⟩⟩ ⟨none, ⟨none, none⟩⟩
      (['w','g','0']) []).2.1 (by decide)⟩

/-- One step of the scan agrees with "take the minimum over positive samples",
and preserves the int-range invariant, for samples that are either `-1`
(unresolvable) or a nonnegative `int`. -/
theorem set_mtu_fold_spec (base s : Int) (hb : 0 ≤ base ∧ base < 2147483648)
    (hs : s = -1 ∨ (0 ≤ s ∧ s < 2147483648)) :
    set_mtu_fold base s = (if 0 < s then min base s else base) ∧
    0 ≤ set_mtu_fold base s ∧ set_mtu_fold base s < 2147483648 := by
  have hbm : base % 4294967296 = base := Int.emod_eq_of_lt hb.1 (by omega)
  rcases hs with h | h
  · subst h
    have hm : ((-1 : Int) % 4294967296) = 4294967295 := by decide
    have hcond : ¬ (0 < cUInt (-1) ∧ cUInt (-1) < cUInt base) := by
      simp only [cUInt, hm, hbm]
      omega
    simp only [set_mtu_fold, if_neg hcond]
    simp
    omega
  · have hsm : s % 4294967296 = s := Int.emod_eq_of_lt h.1 (by omega)
    by_cases hpos : 0 < s
    · have hcu : (cUInt s : Int) = s := by
        simp only [cUInt, hsm]
        omega
      by_cases hlt : s < base
      · have hcond : 0 < cUInt s ∧ cUInt s < cUInt base := by
          simp only [cUInt, hsm, hbm]
          omega
        simp only [set_mtu_fold, if_pos hcond, hcu]
        constructor
        · rw [if_pos hpos, min_eq_right (le_of_lt hlt)]
        · omega
      · have hcond : ¬ (0 < cUInt s ∧ cUInt s < cUInt base) := by
          simp only [cUInt, hsm, hbm]
          omega
        simp only [set_mtu_fold, if_neg hcond]
        constructor
        · rw [if_pos hpos, min_eq_left (by omega)]
        · omega
    · have hcond : ¬ (0 < cUInt s ∧ cUInt s < cUInt base) := by
        simp only [cUInt, hsm]
        omega
      simp only [set_mtu_fold, if_neg hcond]
      constructor
      · rw [if_neg hpos]
      · omega

/-- The whole scan computes the minimum of the base sample and all positive
peer samples. -/
theorem set_mtu_foldl_spec (peers : List Int) (base : Int)
    (hb : 0 ≤ base ∧ base < 2147483648)
    (hp : ∀ s ∈ peers, s = -1 ∨ (0 ≤ s ∧ s < 2147483648)) :
    peers.foldl set_mtu_fold base =
      (peers.filter (fun s => decide (0 < s))).foldl min base := by
  induction peers generalizing base with
  | nil => rfl
  | cons s rest ih =>
    have hs := hp s (by simp)
    have hfold := set_mtu_fold_spec base s hb hs
    by_cases hpos : 0 < s
    · rw [List.foldl_cons, List.filter_cons_of_pos (by simpa using hpos), List.foldl_cons,
        hfold.1, if_pos hpos]
      exact ih (min base s) ⟨le_min hb.1 (le_of_lt hpos), lt_of_le_of_lt (min_le_left _ _) hb.2⟩
        (fun t ht => hp t (by simp [ht]))
    · rw [List.foldl_cons, List.filter_cons_of_neg (by simpa using hpos),
        hfold.1, if_neg hpos]
      exact ih base hb (fun t ht => hp t (by simp [ht]))

/-- C2: with a zero (auto-resolve) MTU descriptor, the installed MTU equals
min(m0, m1, ..., mn) - 80 where m0 is the default-route sample with the 1500
fallback and m1..mn are exactly the peer samples that resolved to a positive
MTU; in particular when no sample resolves the installed MTU is
1500 - 80 = 1420.  Samples are `int` results of `get_route_mtu`: either `-1`
(unresolvable) or a nonnegative int (`atoi` of a digit string). -/
theorem C2_auto_mtu (m0 : Int) (peers : List Int)
    (h0 : m0 = -1 ∨ (0 ≤ m0 ∧ m0 < 2147483648))
    (hp : ∀ s ∈ peers, s = -1 ∨ (0 ≤ s ∧ s < 2147483648)) :
    set_mtu_auto m0 peers = specAutoMtu m0 peers ∧
    (m0 = -1 → (∀ s ∈ peers, s = -1) → set_mtu_auto m0 peers = 1420) := by
  have hbase : 0 ≤ (if m0 = -1 then (1500 : Int) else m0) ∧
      (if m0 = -1 then (1500 : Int) else m0) < 2147483648 := by
    rcases h0 with h | h
    · rw [if_pos h]
      omega
    · constructor
      · split
        · omega
        · exact h.1
      · split
        · omega
        · exact h.2
  constructor
  · simp only [set_mtu_auto, specAutoMtu]
    rw [set_mtu_foldl_spec peers _ hbase hp]
  · intro hm hall
    have hfil : peers.filter (fun s => decide (0 < s)) = [] := by
      rw [List.filter_eq_nil]
      intro a ha
      have := hall a ha
      subst this
      decide
    simp only [set_mtu_auto]
    rw [set_mtu_foldl_spec peers _ hbase hp, hfil, if_pos hm]
    rfl

/-- Witness for C2 at concrete inputs: a resolvable default route of 1400 and
peer samples 1300 (positive), -1 (unresolvable) and 0; and the no-sample case. -/
theorem C2_witness :
    (set_mtu_auto 1400 [1300, -1, 0] = specAutoMtu 1400 [1300, -1, 0]) ∧
    (set_mtu_auto (-1) [(-1 : Int)] = 1420) :=
  ⟨(C2_auto_mtu 1400 [1300, -1, 0] (Or.inr (by decide)) (by decide)).1,
   (C2_auto_mtu (-1) [(-1 : Int)] (Or.inl rfl) (by decide)).2 rfl (by decide)⟩

/-- The mask keeps values at or below 0xfffe. -/
theorem maskEven_le (r : Nat) : maskEven r ≤ 65534 :=
  Nat.and_le_right

/-- The mask clears bit 0, so every masked value is even. -/
theorem maskEven_even (r : Nat) : maskEven r % 2 = 0 := by
  have h1 : maskEven r % 2 = maskEven r &&& 1 := (Nat.and_one_is_mod _).symm
  have h2 : (65534 : Nat) &&& 1 = 0 := by decide
  rw [h1, maskEven, Nat.and_assoc, h2, Nat.and_zero]

/-- Once the candidate is at least 4096 the loop returns it unchanged. -/
theorem alloc_fuel_done (rng : Nat → Nat) (fuel i netid : Nat) (h : 4096 ≤ netid) :
    alloc_fuel rng fuel i netid = some netid := by
  cases fuel with
  | zero => simp [alloc_fuel, Nat.not_lt.2 h]
  | succ f => simp [alloc_fuel, Nat.not_lt.2 h]

/-- Range invariant of the allocation loop: whatever it returns is in
[4096, 65534] and even, provided the start candidate is either below the
resample bound or already in range. -/
theorem alloc_fuel_range (rng : Nat → Nat) :
    ∀ fuel i netid id,
      (netid < 4096 ∨ (4096 ≤ netid ∧ netid ≤ 65534 ∧ netid % 2 = 0)) →
      alloc_fuel rng fuel i netid = some id →
      4096 ≤ id ∧ id ≤ 65534 ∧ id % 2 = 0 := by
  intro fuel
  induction fuel with
  | zero =>
    intro i netid id hinv h
    by_cases hlt : netid < 4096
    · simp [alloc_fuel, hlt] at h
    · simp [alloc_fuel, hlt] at h
      subst h
      rcases hinv with h | h
      · omega
      · exact h
  | succ f ih =>
    intro i netid id hinv h
    by_cases hlt : netid < 4096
    · simp only [alloc_fuel, if_pos hlt] at h
      refine ih (i + 1) (maskEven (rng i)) id ?_ h
      by_cases h4 : maskEven (rng i) < 4096
      · exact Or.inl h4
      · exact Or.inr ⟨Nat.le_of_not_lt h4, maskEven_le _, maskEven_even _⟩
    · simp only [alloc_fuel, if_neg hlt] at h
      rcases hinv with h' | h'
      · omega
      · cases h
        exact h'

/-- C6: every network id the allocation loop returns - for every possible
value sequence of the pseudo-random source and any number of iterations -
satisfies 4096 <= id <= 65534 and id mod 2 = 0 (the candidate starts at 0 and
is resampled, masked to an even 16-bit range, while below 4096). -/
theorem C6_alloc_range (rng : Nat → Nat) (fuel id : Nat)
    (h : alloc_fuel rng fuel 0 0 = some id) :
    4096 ≤ id ∧ id ≤ 65534 ∧ id % 2 = 0 :=
  alloc_fuel_range rng fuel 0 0 id (Or.inl (by omega)) h

/-- Witness for C6 at a concrete random stream. -/
theorem C6_witness : 4096 ≤ 8192 ∧ 8192 ≤ 65534 ∧ 8192 % 2 = 0 :=
  C6_alloc_range (fun _ => 8192) 1 8192 (by decide)

/-- Soundness of the loop: any returned id is the first masked sample (from
index `i` on) that reaches 4096, provided the current candidate is still
below 4096. -/
theorem alloc_fuel_first (rng : Nat → Nat) :
    ∀ fuel i netid id, netid < 4096 → alloc_fuel rng fuel i netid = some id →
      ∃ n, i ≤ n ∧ id = maskEven (rng n) ∧ 4096 ≤ maskEven (rng n) ∧
           ∀ m, i ≤ m → m < n → maskEven (rng m) < 4096 := by
  intro fuel
  induction fuel with
  | zero =>
    intro i netid id hlt h
    simp [alloc_fuel, hlt] at h
  | succ f ih =>
    intro i netid id hlt h
    simp only [alloc_fuel, if_pos hlt] at h
    by_cases h4 : maskEven (rng i) < 4096
    · obtain ⟨n, hin, hid, hge, hfirst⟩ := ih (i + 1) (maskEven (rng i)) id h4 h
      refine ⟨n, by omega, hid, hge, ?_⟩
      intro m him hmn
      by_cases hmi : m = i
      · subst hmi
        exact h4
      · exact hfirst m (by omega) hmn
    · rw [alloc_fuel_done rng f (i + 1) (maskEven (rng i)) (Nat.le_of_not_lt h4)] at h
      cases h
      refine ⟨i, le_refl i, rfl, Nat.le_of_not_lt h4, ?_⟩
      intro m him hmi
      omega

/-- Completeness of the loop: if the sample at index `i + n` reaches 4096
after masking, fuel `n + 1` suffices for termination. -/
theorem alloc_fuel_complete (rng : Nat → Nat) :
    ∀ n i netid, netid < 4096 → 4096 ≤ maskEven (rng (i + n)) →
      (alloc_fuel rng (n + 1) i netid).isSome := by
  intro n
  induction n with
  | zero =>
    intro i netid hlt hge
    simp only [alloc_fuel, if_pos hlt]
    have : ¬ maskEven (rng i) < 4096 := by
      have := hge
      simp only [Nat.add_zero] at this
      omega
    simp [this]
  | succ n ih =>
    intro i netid hlt hge
    have heq : alloc_fuel rng (n + 1 + 1) i netid =
        if netid < 4096 then alloc_fuel rng (n + 1) (i + 1) (maskEven (rng i))
        else some netid := rfl
    rw [heq, if_pos hlt]
    by_cases h4 : maskEven (rng i) < 4096
    · have hidx : i + 1 + n = i + (n + 1) := by omega
      exact ih (i + 1) (maskEven (rng i)) h4 (by rw [hidx]; exact hge)
    · rw [alloc_fuel_done rng (n + 1) (i + 1) (maskEven (rng i)) (Nat.le_of_not_lt h4)]
      rfl

/-- C10: starting from candidate 0, the allocation loop terminates (for some
amount of fuel) if and only if the pseudo-random stream eventually yields a
value whose even-16-bit masking is at least 4096; and whenever it returns an
id, that id is the first such masked value in the stream. -/
theorem C10_alloc_termination (rng : Nat → Nat) :
    ((∃ fuel, (alloc_fuel rng fuel 0 0).isSome) ↔ (∃ n, 4096 ≤ maskEven (rng n))) ∧
    (∀ fuel id, alloc_fuel rng fuel 0 0 = some id →
       ∃ n, id = maskEven (rng n) ∧ 4096 ≤ maskEven (rng n) ∧
            ∀ m, m < n → maskEven (rng m) < 4096) := by
  constructor
  · constructor
    · rintro ⟨fuel, hs⟩
      obtain ⟨id, hid⟩ := Option.isSome_iff_exists.1 hs
      obtain ⟨n, _, _, hge, _⟩ := alloc_fuel_first rng fuel 0 0 id (by omega) hid
      exact ⟨n, hge⟩
    · rintro ⟨n, hn⟩
      exact ⟨n + 1, alloc_fuel_complete rng n 0 0 (by omega) (by simpa using hn)⟩
  · intro fuel id hid
    obtain ⟨n, _, hidm, hge, hfirst⟩ := alloc_fuel_first rng fuel 0 0 id (by omega) hid
    exact ⟨n, hidm, hge, fun m hmn => hfirst m (Nat.zero_le m) hmn⟩

/-- Witness for C10 at a concrete random stream. -/
theorem C10_witness :
    ∃ n, 8192 = maskEven ((fun (_ : Nat) => 8192) n) ∧
         4096 ≤ maskEven ((fun (_ : Nat) => 8192) n) ∧
         ∀ m, m < n → maskEven ((fun (_ : Nat) => 8192) m) < 4096 :=
  (C10_alloc_termination (fun (_ : Nat) => 8192)).2 1 8192 (by decide)

/-- A leading run free of delimiters is accumulated into the current token. -/
theorem tokensGo_append_nodelim (p : Char → Bool) :
    ∀ (q rest cur : Str), (∀ c ∈ q, p c = false) →
      tokensGo p (q ++ rest) cur = tokensGo p rest (q.reverse ++ cur) := by
  intro q
  induction q with
  | nil =>
    intro rest cur h
    simp
  | cons c q ih =>
    intro rest cur h
    have hc : p c = false := h c (by simp)
    simp only [List.cons_append, tokensGo, hc, Bool.false_eq_true, if_false, List.append_eq]
    rw [ih rest (c :: cur) (fun d hd => h d (by simp [hd]))]
    simp

/-- Every token produced by the tokenizer is nonempty and delimiter-free
(provided the accumulator is delimiter-free). -/
theorem tokensGo_tokens_prop (p : Char → Bool) :
    ∀ (rest cur : Str), (∀ c ∈ cur, p c = false) →
      ∀ t ∈ tokensGo p rest cur, t ≠ [] ∧ ∀ c ∈ t, p c = false := by
  intro rest
  induction rest with
  | nil =>
    intro cur hcur t ht
    by_cases hc : cur = []
    · subst hc
      simp [tokensGo] at ht
    · simp only [tokensGo, if_neg hc, List.mem_singleton] at ht
      subst ht
      refine ⟨by simpa using hc, ?_⟩
      intro c hcm
      exact hcur c (by simpa using hcm)
  | cons d rest ih =>
    intro cur hcur t ht
    by_cases hd : p d = true
    · by_cases hc : cur = []
      · subst hc
        simp only [tokensGo, hd, if_true, if_pos rfl] at ht
        exact ih [] (by simp) t ht
      · simp only [tokensGo, hd, if_true, if_neg hc, List.mem_cons] at ht
        rcases ht with ht | ht
        · subst ht
          refine ⟨by simpa using hc, ?_⟩
          intro c hcm
          exact hcur c (by simpa using hcm)
        · exact ih [] (by simp) t ht
    · have hd' : p d = false := by simpa using hd
      simp only [tokensGo, hd', Bool.false_eq_true, if_false] at ht
      refine ih (d :: cur) ?_ t ht
      intro c hcm
      rcases List.mem_cons.1 hcm with h | h
      · subst h
        exact hd'
      · exact hcur c h

/-- The total length of all tokens never exceeds the input length (plus the
accumulator). -/
theorem tokensGo_length_sum (p : Char → Bool) :
    ∀ (rest cur : Str),
      ((tokensGo p rest cur).map List.length).sum ≤ rest.length + cur.length := by
  intro rest
  induction rest with
  | nil =>
    intro cur
    by_cases hc : cur = []
    · subst hc
      simp [tokensGo]
    · simp [tokensGo, hc]
  | cons d rest ih =>
    intro cur
    by_cases hd : p d = true
    · by_cases hc : cur = []
      · subst hc
        simp only [tokensGo, hd, if_true, if_pos rfl]
        have := ih []
        simp only [List.length_nil, Nat.add_zero] at this
        simp only [List.length_cons]
        omega
      · simp only [tokensGo, hd, if_true, if_neg hc, List.map_cons, List.sum_cons,
          List.length_reverse]
        have := ih []
        simp only [List.length_nil, Nat.add_zero] at this
        simp only [List.length_cons]
        omega
    · have hd' : p d = false := by simpa using hd
      simp only [tokensGo, hd', Bool.false_eq_true, if_false]
      have := ih (d :: cur)
      simp only [List.length_cons] at this ⊢
      omega

/-- Folding an append over a list is the concatenation of the mapped pieces. -/
theorem foldl_append_eq_join (f : Str → Str) :
    ∀ (l : List Str) (acc : Str),
      l.foldl (fun a t => a ++ f t) acc = acc ++ (l.map f).join := by
  intro l
  induction l with
  | nil =>
    intro acc
    simp
  | cons t l ih =>
    intro acc
    simp only [List.foldl_cons, List.map_cons, List.join]
    rw [ih]
    simp

/-- A nonempty space-free string is one single token under the space
tokenizer. -/
theorem strtokAll_single_nospace (t : Str) (hne : t ≠ [])
    (hsp : ∀ c ∈ t, spaceP c = false) :
    strtokAll spaceP t = [t] := by
  unfold strtokAll
  have h := tokensGo_append_nodelim spaceP t [] [] hsp
  simp only [List.append_nil] at h
  rw [h]
  have hrne : t.reverse ≠ [] := by simpa using hne
  simp [tokensGo, hrne]

/-- Quoted entries have no spaces when the underlying tokens have none. -/
theorem specQuoted_nospace (t : Str) (h : ∀ c ∈ t, spaceP c = false) :
    ∀ c ∈ specQuoted t, spaceP c = false := by
  intro c hc
  rw [specQuoted] at hc
  rcases List.mem_cons.1 hc with h39 | hrest
  · subst h39
    decide
  · rcases List.mem_append.1 hrest with hm | hm
    · exact h c hm
    · rcases List.mem_singleton.1 hm with rfl
      decide

/-- Splitting the concatenation of space-terminated quoted entries recovers
exactly the quoted entries, in order. -/
theorem splitArgs_quoted_join :
    ∀ (ts : List Str), (∀ t ∈ ts, ∀ c ∈ t, spaceP c = false) →
      splitArgs ((ts.map (fun t => specQuoted t ++ [' '])).join) = ts.map specQuoted := by
  intro ts
  induction ts with
  | nil =>
    intro h
    rfl
  | cons t ts ih =>
    intro h
    have hq : ∀ c ∈ specQuoted t, spaceP c = false :=
      specQuoted_nospace t (h t (by simp))
    simp only [List.map_cons, List.join_cons]
    unfold splitArgs strtokAll
    rw [List.append_assoc, tokensGo_append_nodelim spaceP (specQuoted t) _ [] hq]
    have hsp : spaceP ' ' = true := by decide
    have hrne : (specQuoted t).reverse ≠ [] := by simp [specQuoted]
    simp only [List.append_nil, List.cons_append, List.nil_append, List.append_eq, tokensGo,
      hsp, if_true, if_neg hrne, List.reverse_reverse]
    have hih := ih (fun u hu => h u (by simp [hu]))
    unfold splitArgs strtokAll at hih
    rw [hih]

/-- Without truncation (entry strictly shorter than the whole DNS string) the
argument is the quoted entry followed by the joining space. -/
theorem dnsArgFor_full (len : Nat) (t : Str) (h : t.length < len) :
    dnsArgFor len t = specQuoted t ++ [' '] := by
  unfold dnsArgFor specQuoted
  have hmin : min (t.length + 3) (len + 2) = t.length + 3 := by omega
  rw [hmin]
  have hlen : (Char.ofNat 39 :: t ++ [Char.ofNat 39, ' ']).length = t.length + 3 := by simp
  rw [← hlen, List.take_length]
  simp

/-- When the entry is the entire DNS string, `snprintf`'s bound drops exactly
the trailing space. -/
theorem dnsArgFor_trunc (len : Nat) (t : Str) (h : t.length = len) :
    dnsArgFor len t = specQuoted t := by
  unfold dnsArgFor specQuoted
  have hmin : min (t.length + 3) (len + 2) = len + 2 := by omega
  rw [hmin]
  have hsplit : Char.ofNat 39 :: t ++ [Char.ofNat 39, ' '] =
      (Char.ofNat 39 :: t ++ [Char.ofNat 39]) ++ [' '] := by simp
  rw [hsplit]
  have hlen2 : (Char.ofNat 39 :: t ++ [Char.ofNat 39]).length = len + 2 := by simp [h]
  rw [← hlen2, List.take_left]

/-- Each token is bounded in length by the tokenized string. -/
theorem token_length_le (p : Char → Bool) (s t : Str) (ht : t ∈ strtokAll p s) :
    t.length ≤ s.length := by
  have hsum := tokensGo_length_sum p s []
  simp only [List.length_nil, Nat.add_zero] at hsum
  have hmem : t.length ∈ (tokensGo p s []).map List.length := List.mem_map_of_mem _ ht
  exact le_trans (List.single_le_sum (fun x _ => Nat.zero_le x) _ hmem) hsum

/-- A token as long as the whole input is the only token. -/
theorem tokens_singleton (p : Char → Bool) (s t : Str)
    (ht : t ∈ strtokAll p s) (hlen : t.length = s.length) :
    strtokAll p s = [t] := by
  obtain ⟨l1, l2, hdec⟩ := List.append_of_mem ht
  have hsum := tokensGo_length_sum p s []
  simp only [List.length_nil, Nat.add_zero] at hsum
  have hprop := tokensGo_tokens_prop p s [] (by simp)
  rw [show strtokAll p s = tokensGo p s [] from rfl] at hdec
  rw [hdec] at hsum
  simp only [List.map_append, List.map_cons, List.sum_append, List.sum_cons] at hsum
  cases l1 with
  | cons x l1t =>
    exfalso
    have hx : x ∈ tokensGo p s [] := by
      rw [hdec]
      simp
    have hxne : x ≠ [] := (hprop x hx).1
    have hx1 : 1 ≤ x.length := by
      cases x with
      | nil => exact absurd rfl hxne
      | cons a b => simp
    simp only [List.map_cons, List.sum_cons] at hsum
    omega
  | nil =>
    cases l2 with
    | cons y l2t =>
      exfalso
      have hy : y ∈ tokensGo p s [] := by
        rw [hdec]
        simp
      have hyne : y ≠ [] := (hprop y hy).1
      have hy1 : 1 ≤ y.length := by
        cases y with
        | nil => exact absurd rfl hyne
        | cons a b => simp
      simp only [List.map_cons, List.sum_cons] at hsum
      omega
    | nil =>
      rw [show strtokAll p s = tokensGo p s [] from rfl, hdec]
      simp

/-- C7: the resolver command is issued iff sanitization keeps at least one
tokenized entry; entries containing a single quote or backslash are dropped
and all others appear, individually quoted, space-separated and in original
order, in the single argument list of the command; when the DNS list is empty
or everything is dropped, no command is issued. -/
theorem C7_dns_sanitization (netid : Nat) (dnses : Str) :
    (set_dnses_cmd netid dnses = none ↔
      (strtokAll dnsDelim dnses).filter dnsClean = []) ∧
    (∀ s, set_dnses_cmd netid dnses = some (ExtCmd.ndcResolverSetnetdns netid s) →
      splitArgs s = ((strtokAll dnsDelim dnses).filter dnsClean).map specQuoted) := by
  have htok := tokensGo_tokens_prop dnsDelim dnses [] (by simp)
  have hjoin : set_dnses_arglist dnses =
      (((strtokAll dnsDelim dnses).filter dnsClean).map (dnsArgFor dnses.length)).join := by
    unfold set_dnses_arglist
    rw [foldl_append_eq_join]
    simp
  have hnospace : ∀ t ∈ (strtokAll dnsDelim dnses).filter dnsClean,
      ∀ c ∈ t, spaceP c = false := by
    intro t htm c hcm
    have htt : t ∈ strtokAll dnsDelim dnses := List.mem_of_mem_filter htm
    have hdel := (htok t htt).2 c hcm
    by_contra hns
    have hc : c = ' ' := by
      simpa [spaceP] using hns
    rw [hc] at hdel
    simp [dnsDelim] at hdel
  have hposlen : ∀ t ks, (strtokAll dnsDelim dnses).filter dnsClean = t :: ks →
      dnses.length ≠ 0 ∧ (set_dnses_arglist dnses).length ≠ 0 := by
    intro t ks hkeq
    have htm : t ∈ (strtokAll dnsDelim dnses).filter dnsClean := by
      rw [hkeq]
      simp
    have htt : t ∈ strtokAll dnsDelim dnses := List.mem_of_mem_filter htm
    have htne : t ≠ [] := (htok t htt).1
    have ht1 : 1 ≤ t.length := by
      cases t with
      | nil => exact absurd rfl htne
      | cons a b => simp
    have htle : t.length ≤ dnses.length := token_length_le dnsDelim dnses t htt
    refine ⟨by omega, ?_⟩
    rw [hjoin, hkeq]
    simp only [List.map_cons, List.join_cons, List.length_append]
    have harg : (dnsArgFor dnses.length t).length =
        min (t.length + 3) (dnses.length + 2) := by
      unfold dnsArgFor
      rw [List.length_take]
      simp only [List.length_cons, List.length_append, List.length_cons,
        List.length_singleton]
      omega
    omega
  constructor
  · constructor
    · intro hnone
      by_cases hk : (strtokAll dnsDelim dnses).filter dnsClean = []
      · exact hk
      · exfalso
        obtain ⟨t, ks, hkeq⟩ := List.exists_cons_of_ne_nil hk
        obtain ⟨h1, h2⟩ := hposlen t ks hkeq
        unfold set_dnses_cmd at hnone
        rw [if_neg h1, if_neg h2] at hnone
        exact absurd hnone (by simp)
    · intro hk
      unfold set_dnses_cmd
      by_cases hlen0 : dnses.length = 0
      · rw [if_pos hlen0]
      · rw [if_neg hlen0]
        have hae : set_dnses_arglist dnses = [] := by
          rw [hjoin, hk]
          rfl
        rw [hae]
        simp
  · intro s hs
    have hsarg : set_dnses_arglist dnses = s := by
      unfold set_dnses_cmd at hs
      by_cases h1 : dnses.length = 0
      · rw [if_pos h1] at hs
        exact absurd hs (by simp)
      · rw [if_neg h1] at hs
        by_cases h2 : (set_dnses_arglist dnses).length = 0
        · rw [if_pos h2] at hs
          exact absurd hs (by simp)
        · rw [if_neg h2] at hs
          simpa using hs
    subst hsarg
    by_cases hbig : ∃ t ∈ (strtokAll dnsDelim dnses).filter dnsClean,
        t.length = dnses.length
    · obtain ⟨t, htm, hteq⟩ := hbig
      have htokeq := tokens_singleton dnsDelim dnses t (List.mem_of_mem_filter htm) hteq
      have hcl : dnsClean t = true := (List.mem_filter.1 htm).2
      have hkeq : (strtokAll dnsDelim dnses).filter dnsClean = [t] := by
        rw [htokeq]
        simp [hcl]
      rw [hjoin, hkeq]
      simp only [List.map_cons, List.map_nil, List.join_cons, List.join_nil,
        List.append_nil]
      rw [dnsArgFor_trunc _ _ hteq]
      have htne : t ≠ [] := (htok t (List.mem_of_mem_filter htm)).1
      have hq : specQuoted t ≠ [] := by simp [specQuoted]
      rw [splitArgs, strtokAll_single_nospace (specQuoted t) hq
        (specQuoted_nospace t (hnospace t htm))]
    · push_neg at hbig
      have hmap : ((strtokAll dnsDelim dnses).filter dnsClean).map (dnsArgFor dnses.length) =
          ((strtokAll dnsDelim dnses).filter dnsClean).map (fun t => specQuoted t ++ [' ']) := by
        apply List.map_congr_left
        intro t htm
        have hle := token_length_le dnsDelim dnses t (List.mem_of_mem_filter htm)
        exact dnsArgFor_full _ _ (lt_of_le_of_ne hle (hbig t htm))
      rw [hjoin, hmap, splitArgs_quoted_join _ hnospace]

/-- Witness for C7 at a concrete DNS list: the middle entry contains a
backslash and is dropped; the remaining two are kept in order, quoted and
space-separated. -/
theorem C7_witness :
    splitArgs (set_dnses_arglist (("1.1.1.1 8.8\\8.8,9.9.9.9").toList)) =
      ((strtokAll dnsDelim (("1.1.1.1 8.8\\8.8,9.9.9.9").toList)).filter dnsClean).map
        specQuoted :=
  (C7_dns_sanitization 12 (("1.1.1.1 8.8\\8.8,9.9.9.9").toList)).2
    (set_dnses_arglist (("1.1.1.1 8.8\\8.8,9.9.9.9").toList)) (by decide)

/-- The spec-side section flag agrees with the code's two sequential updates. -/
theorem sectionAfter_eq (flag : Bool) (line : Str) :
    sectionAfter flag line = nextSectionFlag flag (stripWs line) := by
  unfold sectionAfter nextSectionFlag
  by_cases h1 : strcaseEq (stripWs line) (("[interface]").toList) = true
  · simp [h1]
  · have h1f : strcaseEq (stripWs line) (("[interface]").toList) = false := by
      simpa using h1
    by_cases h2 : (stripWs line).headD (Char.ofNat 0) = '['
    · simp [h1f, h2]
    · simp [h1f, h2]

/-- Field-by-field effect of one loop iteration, expressed through the line's
classification under the section flag in force. -/
theorem processLine_fields (st : POpts) (line : Str) :
    (processLine st line).in_interface_section =
      nextSectionFlag st.in_interface_section (stripWs line) ∧
    (processLine st line).addrs =
      (match classifyLine (nextSectionFlag st.in_interface_section (stripWs line)) line with
       | LineClass.addrLine v => some (concat_and_free st.addrs [','] v)
       | _ => st.addrs) ∧
    (processLine st line).dnses =
      (match classifyLine (nextSectionFlag st.in_interface_section (stripWs line)) line with
       | LineClass.dnsLine v => some (concat_and_free st.dnses [','] v)
       | _ => st.dnses) ∧
    (processLine st line).mtu =
      (match classifyLine (nextSectionFlag st.in_interface_section (stripWs line)) line with
       | LineClass.mtuLine v => cUInt (atoiC v)
       | _ => st.mtu) ∧
    (processLine st line).config =
      (match classifyLine (nextSectionFlag st.in_interface_section (stripWs line)) line with
       | LineClass.passLine => some (concat_and_free st.config [] line)
       | _ => st.config) := by
  simp only [processLine, classifyLine]
  split_ifs <;> exact ⟨rfl, rfl, rfl, rfl, rfl⟩

/-- The whole `getline` loop, field by field, against the spec-side
collectors, from an arbitrary intermediate state. -/
theorem parse_fold_fields :
    ∀ (lines : List Str) (st : POpts),
      ((lines.foldl processLine st).addrs =
        (annAddrs st.in_interface_section lines).foldl
          (fun o v => some (concat_and_free o [','] v)) st.addrs) ∧
      ((lines.foldl processLine st).dnses =
        (annDnses st.in_interface_section lines).foldl
          (fun o v => some (concat_and_free o [','] v)) st.dnses) ∧
      ((lines.foldl processLine st).mtu =
        (annMtus st.in_interface_section lines).foldl
          (fun _ v => cUInt (atoiC v)) st.mtu) ∧
      ((lines.foldl processLine st).config =
        (annPass st.in_interface_section lines).foldl
          (fun o l => some (concat_and_free o [] l)) st.config) := by
  intro lines
  induction lines with
  | nil =>
    intro st
    exact ⟨rfl, rfl, rfl, rfl⟩
  | cons l ls ih =>
    intro st
    have hpf := processLine_fields st l
    rw [← sectionAfter_eq] at hpf
    obtain ⟨hp1, hp2, hp3, hp4, hp5⟩ := hpf
    obtain ⟨hi1, hi2, hi3, hi4⟩ := ih (processLine st l)
    rw [hp1] at hi1 hi2 hi3 hi4
    simp only [List.foldl_cons, annAddrs, annDnses, annMtus, annPass, specAnnotate,
      List.filterMap_cons] at hi1 hi2 hi3 hi4 ⊢
    cases hc : classifyLine (sectionAfter st.in_interface_section l) l <;>
      simp only [hc] at hp2 hp3 hp4 hp5 ⊢ <;>
      rw [hi1, hi2, hi3, hi4, hp2, hp3, hp4, hp5] <;>
      simp [List.foldl_cons]

/-- Accumulating through `concat_and_free` from a started string is a plain
left fold of delimited appends. -/
theorem foldl_concat_some (delim : Str) :
    ∀ (vs : List Str) (a : Str),
      vs.foldl (fun o v => some (concat_and_free o delim v)) (some a) =
        some (vs.foldl (fun acc v => acc ++ delim ++ v) a) := by
  intro vs
  induction vs with
  | nil =>
    intro a
    rfl
  | cons v vs ih =>
    intro a
    rw [List.foldl_cons, List.foldl_cons]
    exact ih (a ++ delim ++ v)

/-- The delimited left fold is the delimiter join of the start and the
values. -/
theorem foldl_append_delim (delim : Str) :
    ∀ (vs : List Str) (a : Str),
      vs.foldl (fun acc v => acc ++ delim ++ v) a =
        (match vs with
         | [] => a
         | v :: vs2 => a ++ delim ++ delimJoin delim (v :: vs2)) := by
  intro vs
  induction vs with
  | nil =>
    intro a
    rfl
  | cons v vs ih =>
    intro a
    rw [List.foldl_cons, ih]
    cases vs with
    | nil => rfl
    | cons w vs2 => simp [delimJoin, List.append_assoc]

/-- Accumulating through `concat_and_free` from an empty slot yields the
delimiter join of the values (or nothing at all when there are none). -/
theorem foldl_concat_none (delim : Str) (vs : List Str) :
    vs.foldl (fun o v => some (concat_and_free o delim v)) none =
      (match vs with
       | [] => none
       | v :: vs2 => some (delimJoin delim (v :: vs2))) := by
  cases vs with
  | nil => rfl
  | cons v vs2 =>
    rw [List.foldl_cons]
    have h0 : concat_and_free none delim v = v := rfl
    rw [show (some (concat_and_free none delim v)) = some v from by rw [h0]]
    rw [foldl_concat_some delim vs2 v, foldl_append_delim delim vs2 v]
    cases vs2 with
    | nil => rfl
    | cons w vs3 => simp [delimJoin]

/-- An overwriting fold keeps only the last value. -/
theorem foldl_overwrite :
    ∀ (vs : List Str) (d : Nat),
      vs.foldl (fun _ v => cUInt (atoiC v)) d =
        (match vs.getLast? with
         | none => d
         | some v => cUInt (atoiC v)) := by
  intro vs
  induction vs with
  | nil =>
    intro d
    rfl
  | cons v vs ih =>
    intro d
    rw [List.foldl_cons, ih]
    cases vs with
    | nil => rfl
    | cons w vs2 =>
      rw [List.getLast?_cons_cons]
      cases h : (w :: vs2).getLast? with
      | none => simp at h
      | some u => rfl

/-- Joining with the empty delimiter is plain concatenation. -/
theorem delimJoin_nil_delim : ∀ (ls : List Str), delimJoin [] ls = ls.join := by
  intro ls
  induction ls with
  | nil => rfl
  | cons v ls ih =>
    cases ls with
    | nil => simp [delimJoin]
    | cons w ls2 =>
      rw [show delimJoin [] (v :: w :: ls2) = v ++ [] ++ delimJoin [] (w :: ls2) from rfl, ih]
      simp

/-- C8 counterexample: the claim restricts merging to the LEADING
`[Interface]` section.  In this file the `Address=` line sits in a second
`[Interface]` section, after a `[Peer]` section - not in the leading one -
yet it is merged into the descriptor (the address value is captured and the
line is missing from the passed-through config body). -/
theorem C8_counterexample :
    (parse_options_run [("[Interface]\n").toList, ("[Peer]\n").toList, ("[Interface]\n").toList,
        ("Address=1.2.3.4\n").toList]).1 = ("1.2.3.4").toList ∧
    (parse_options_run [("[Interface]\n").toList, ("[Peer]\n").toList, ("[Interface]\n").toList,
        ("Address=1.2.3.4\n").toList]).2.2.2 = ("[Interface]\n[Peer]\n[Interface]\n").toList := by
  constructor
  · decide
  · decide

/-- C8 as amended: `Address=`/`DNS=` lines and `MTU=` lines are merged into
the descriptor exactly when they occur within ANY `[Interface]` section (after
a case-insensitive, whitespace-stripped `[Interface]` marker and before the
next other section marker) - not only the leading one; with several `MTU=`
lines the last one wins; and every other line of the file - section markers
included - is passed through verbatim, in original order and form, into the
tunnel configuration body. -/
theorem C8_interface_section_merging (lines : List Str) :
    (parse_options_run lines).1 = delimJoin [','] (annAddrs false lines) ∧
    (parse_options_run lines).2.1 = delimJoin [','] (annDnses false lines) ∧
    (parse_options_run lines).2.2.1 =
      (match (annMtus false lines).getLast? with
       | none => 0
       | some v => cUInt (atoiC v)) ∧
    (parse_options_run lines).2.2.2 = (annPass false lines).join := by
  obtain ⟨h1, h2, h3, h4⟩ := parse_fold_fields lines
    { addrs := none, dnses := none, mtu := 0, config := none, in_interface_section := false }
  refine ⟨?_, ?_, ?_, ?_⟩
  · simp only [parse_options_run, parse_lines]
    rw [h1, foldl_concat_none]
    cases hv : annAddrs false lines with
    | nil => rfl
    | cons v vs => rfl
  · simp only [parse_options_run, parse_lines]
    rw [h2, foldl_concat_none]
    cases hv : annDnses false lines with
    | nil => rfl
    | cons v vs => rfl
  · simp only [parse_options_run, parse_lines]
    rw [h3, foldl_overwrite]
  · simp only [parse_options_run, parse_lines]
    rw [h4, foldl_concat_none]
    cases hv : annPass false lines with
    | nil => rfl
    | cons v vs =>
      simpa using delimJoin_nil_delim (v :: vs)

/-- Characters surviving the whitespace strip are not whitespace. -/
theorem stripWs_nonspace (line : Str) : ∀ c ∈ stripWs line, cIsSpace c = false := by
  intro c hc
  have h := (List.mem_filter.1 hc).2
  simpa using h

/-- An `Address=` classification stores the tail of the stripped line. -/
theorem classify_addr_value (flag : Bool) (line : Str) (v : Str)
    (h : classifyLine flag line = LineClass.addrLine v) :
    v = (stripWs line).drop 8 := by
  simp only [classifyLine] at h
  split_ifs at h <;> first
    | (cases h; rfl)
    | cases h

/-- A `DNS=` classification stores the tail of the stripped line. -/
theorem classify_dns_value (flag : Bool) (line : Str) (v : Str)
    (h : classifyLine flag line = LineClass.dnsLine v) :
    v = (stripWs line).drop 4 := by
  simp only [classifyLine] at h
  split_ifs at h <;> first
    | (cases h; rfl)
    | cases h

/-- Every merged address value is whitespace-free. -/
theorem annAddrs_nonspace (flag : Bool) (lines : List Str) :
    ∀ v ∈ annAddrs flag lines, ∀ c ∈ v, cIsSpace c = false := by
  intro v hv
  simp only [annAddrs] at hv
  rcases List.mem_filterMap.1 hv with ⟨⟨f, l⟩, hmem, hcl⟩
  simp only at hcl
  cases hc : classifyLine f l with
  | addrLine w =>
    rw [hc] at hcl
    simp only [Option.some.injEq] at hcl
    intro c hcv
    rw [← hcl] at hcv
    rw [classify_addr_value f l w hc] at hcv
    exact stripWs_nonspace l c (List.mem_of_mem_drop hcv)
  | dnsLine w =>
    rw [hc] at hcl
    simp at hcl
  | mtuLine w =>
    rw [hc] at hcl
    simp at hcl
  | passLine =>
    rw [hc] at hcl
    simp at hcl

/-- Every merged DNS value is whitespace-free. -/
theorem annDnses_nonspace (flag : Bool) (lines : List Str) :
    ∀ v ∈ annDnses flag lines, ∀ c ∈ v, cIsSpace c = false := by
  intro v hv
  simp only [annDnses] at hv
  rcases List.mem_filterMap.1 hv with ⟨⟨f, l⟩, hmem, hcl⟩
  simp only at hcl
  cases hc : classifyLine f l with
  | dnsLine w =>
    rw [hc] at hcl
    simp only [Option.some.injEq] at hcl
    intro c hcv
    rw [← hcl] at hcv
    rw [classify_dns_value f l w hc] at hcv
    exact stripWs_nonspace l c (List.mem_of_mem_drop hcv)
  | addrLine w =>
    rw [hc] at hcl
    simp at hcl
  | mtuLine w =>
    rw [hc] at hcl
    simp at hcl
  | passLine =>
    rw [hc] at hcl
    simp at hcl

/-- Comma-joining whitespace-free values stays whitespace-free. -/
theorem delimJoin_comma_nonspace (vs : List Str)
    (h : ∀ v ∈ vs, ∀ c ∈ v, cIsSpace c = false) :
    ∀ c ∈ delimJoin [','] vs, cIsSpace c = false := by
  induction vs with
  | nil =>
    intro c hc
    simp [delimJoin] at hc
  | cons v vs ih =>
    intro c hc
    cases vs with
    | nil =>
      exact h v (by simp) c (by simpa [delimJoin] using hc)
    | cons w vs2 =>
      rw [show delimJoin [','] (v :: w :: vs2) =
          v ++ [','] ++ delimJoin [','] (w :: vs2) from rfl] at hc
      rcases List.mem_append.1 hc with hc1 | hc2
      · rcases List.mem_append.1 hc1 with hcv | hcc
        · exact h v (by simp) c hcv
        · rcases List.mem_singleton.1 hcc with rfl
          decide
      · exact ih (fun u hu => h u (by simp [hu])) c hc2

/-- C9: recognition of `Address=`/`DNS=`/`MTU=`/`[Interface]` lines operates
on a whitespace-stripped copy compared case-insensitively - so
`address = 10.0.0.1` is recognized and stored as `10.0.0.1`; for every file,
the stored address and DNS strings never contain whitespace characters; and an
unmatched line is appended to the tunnel body in its original, untrimmed
form. -/
theorem C9_stripped_recognition :
    ((parse_options_run [("[Interface]\n").toList, ("address = 10.0.0.1\n").toList]).1 =
      ("10.0.0.1").toList ∧
     (parse_options_run [("[Interface]\n").toList, ("address = 10.0.0.1\n").toList]).2.2.2 =
      ("[Interface]\n").toList) ∧
    (∀ lines : List Str,
      (∀ c ∈ (parse_options_run lines).1, cIsSpace c = false) ∧
      (∀ c ∈ (parse_options_run lines).2.1, cIsSpace c = false)) ∧
    ((parse_options_run [("[Interface]\n").toList, ("  PrivateKey = abc  \n").toList]).2.2.2 =
      ("[Interface]\n  PrivateKey = abc  \n").toList) := by
  refine ⟨⟨by decide, by decide⟩, ?_, by decide⟩
  intro lines
  obtain ⟨h1, h2, h3, h4⟩ := parse_fold_fields lines
    { addrs := none, dnses := none, mtu := 0, config := none, in_interface_section := false }
  constructor
  · simp only [parse_options_run, parse_lines]
    rw [h1, foldl_concat_none]
    cases hv : annAddrs false lines with
    | nil =>
      intro c hc
      simp at hc
    | cons v vs =>
      intro c hc
      refine delimJoin_comma_nonspace (v :: vs) ?_ c (by simpa using hc)
      intro u hu
      have := annAddrs_nonspace false lines u
      rw [hv] at this
      exact this hu
  · simp only [parse_options_run, parse_lines]
    rw [h2, foldl_concat_none]
    cases hv : annDnses false lines with
    | nil =>
      intro c hc
      simp at hc
    | cons v vs =>
      intro c hc
      refine delimJoin_comma_nonspace (v :: vs) ?_ c (by simpa using hc)
      intro u hu
      have := annDnses_nonspace false lines u
      rw [hv] at this
      exact this hu

/-- Witness for C9 at a concrete file and character: applies the
whitespace-freeness part at a concrete membership. -/
theorem C9_witness : cIsSpace '1' = false :=
  (C9_stripped_recognition.2.1
    [("[Interface]\n").toList, ("address = 10.0.0.1\n").toList]).1 '1' (by decide)
